import Mathlib

/-
Shallow embedding of src/stt_from_audio_or_video/transcribe.py.

Modelling conventions:
  * File sizes are natural numbers of bytes.  The Python code compares
    float megabytes (bytes / 1048576) against integer thresholds; we model
    the comparison exactly as bytes against threshold * 1048576.
  * The three working directories (to_transcribe, transcriptions,
    space_optimized_files) are modelled by a tagged path type; the
    filesystem is an association list from paths to entries (media files
    carrying a size, text files carrying their lines).
  * External effects are oracles: the encoder (ffmpeg) is a function from
    the strip-video flag and bitrate to an optional output size (none
    models a non-zero exit that leaves the filesystem unchanged); the
    transcription API is a function from the attempt index to a result.
  * time.sleep is recorded, not performed; the wall-clock timestamp used
    in error logs is an explicit parameter.
-/

namespace Stt

def MB : Nat := 1048576

/-- Lower-case a string character by character, as Python str.lower does
on ASCII input. -/
def lowerStr (s : String) : String :=
  String.mk (s.toList.map Char.toLower)

/-- os.path.splitext: split a basename into stem and extension at the last
dot, except when every character before that dot is itself a dot (leading
dot files), in which case the extension is empty. -/
def splitext (s : String) : String × String :=
  let cs := s.toList
  let extRev := cs.reverse.takeWhile (fun c => c ≠ '.')
  if extRev.length = cs.length then (s, "")
  else
    let stemLen := cs.length - extRev.length - 1
    if (cs.take stemLen).all (fun c => c = '.') then (s, "")
    else (String.mk (cs.take stemLen), String.mk ('.' :: extRev.reverse))

/-- True when needle occurs at the head of hay. -/
def leadMatch : List Char → List Char → Bool
  | [], _ => true
  | _ :: _, [] => false
  | a :: as, b :: bs => a = b && leadMatch as bs

/-- True when needle occurs contiguously anywhere in hay (Python `in`). -/
def hasChunk (needle : List Char) : List Char → Bool
  | [] => leadMatch needle []
  | b :: bs => leadMatch needle (b :: bs) || hasChunk needle bs

def subIn (needle hay : String) : Bool :=
  hasChunk needle.toList hay.toList

/-- The capability set of a transcription provider (transcribe.py lines
58-184): size ceiling, supported input formats, and the optimization
settings dictionary. -/
structure Provider where
  name : String
  maxFileSizeMb : Nat
  supportedFormats : List String
  targetExtension : String
  sampleRate : String
  channels : Nat
  bitrateLadder : List String
  deriving DecidableEq, Repr

/-- GroqProvider.__init__ (lines 60-73). -/
def groqProvider : Provider :=
  { name := "groq"
    maxFileSizeMb := 25
    supportedFormats := [".flac", ".mp3", ".mp4", ".mpeg", ".mpga", ".m4a", ".ogg", ".wav", ".webm"]
    targetExtension := ".mp3"
    sampleRate := "16000"
    channels := 1
    bitrateLadder := ["64k", "32k", "16k", "8k"] }

/-- MistralProvider.__init__ (lines 108-121). -/
def mistralProvider : Provider :=
  { name := "mistral"
    maxFileSizeMb := 25
    supportedFormats := [".mp3", ".mp4", ".mpeg", ".mpga", ".m4a", ".wav", ".webm"]
    targetExtension := ".mp3"
    sampleRate := "16000"
    channels := 1
    bitrateLadder := ["96k", "64k", "48k", "32k"] }

/-- The three working directories of the script (lines 206-208). -/
inductive Dir where
  | toTranscribe
  | transcriptions
  | optimized
  deriving DecidableEq, Repr

def dirName : Dir → String
  | .toTranscribe => "to_transcribe"
  | .transcriptions => "transcriptions"
  | .optimized => "space_optimized_files"

structure FPath where
  dir : Dir
  name : String
  deriving DecidableEq, Repr

def pathStr (p : FPath) : String :=
  dirName p.dir ++ "/" ++ p.name

/-- A filesystem entry: a media file with a byte size, or a text artifact
with its lines. -/
inductive Entry where
  | media (sizeBytes : Nat)
  | text (lines : List String)
  deriving DecidableEq, Repr

def lookupL : List (FPath × Entry) → FPath → Option Entry
  | [], _ => none
  | (q, e) :: rest, p => if q = p then some e else lookupL rest p

def removeL (l : List (FPath × Entry)) (p : FPath) : List (FPath × Entry) :=
  l.filter (fun q => q.1 ≠ p)

structure FS where
  entries : List (FPath × Entry)
  deriving DecidableEq, Repr

def FS.lookup (fs : FS) (p : FPath) : Option Entry :=
  lookupL fs.entries p

/-- Create or overwrite a file. -/
def FS.write (fs : FS) (p : FPath) (e : Entry) : FS :=
  ⟨(p, e) :: removeL fs.entries p⟩

/-- os.remove. -/
def FS.remove (fs : FS) (p : FPath) : FS :=
  ⟨removeL fs.entries p⟩

/-- Byte size of a media file, none when absent (or not media). -/
def FS.mediaSize (fs : FS) (p : FPath) : Option Nat :=
  match fs.lookup p with
  | some (.media s) => some s
  | _ => none

/-- A candidate file of the to_transcribe directory: basename and size. -/
structure SrcFile where
  name : String
  sizeBytes : Nat
  deriving DecidableEq, Repr

/-- Lower-cased extension, as os.path.splitext(path)[1].lower(). -/
def fileExt (name : String) : String :=
  lowerStr (splitext name).2

/-- get_transcription_path (lines 219-221). -/
def transcriptionName (fileName : String) : String :=
  (splitext fileName).1 ++ "_transcription.txt"

def getTranscriptionPath (fileName : String) : FPath :=
  ⟨.transcriptions, transcriptionName fileName⟩

/-- get_optimized_file_path (lines 236-240). -/
def optimizedName (p : Provider) (fileName : String) : String :=
  (splitext fileName).1 ++ "_processed" ++ p.targetExtension

def getOptimizedFilePath (p : Provider) (fileName : String) : FPath :=
  ⟨.optimized, optimizedName p fileName⟩

/-- Name of the error log written by transcribe_file (line 346). -/
def errorLogName (fileName : String) : String :=
  (splitext fileName).1 ++ "_error.log"

/-- transcription_exists (lines 223-234): a transcription for the original
stem, or for the stem of the optimized artifact. -/
def transcriptionExists (p : Provider) (fs : FS) (fileName : String) : Bool :=
  (fs.lookup (getTranscriptionPath fileName)).isSome ||
  (fs.lookup ⟨.transcriptions,
    (splitext (optimizedName p fileName)).1 ++ "_transcription.txt"⟩).isSome

/-- needs_optimization (lines 242-247). -/
def needsOptimization (p : Provider) (f : SrcFile) : Bool :=
  f.sizeBytes > p.maxFileSizeMb * MB || !(p.supportedFormats.contains (fileExt f.name))

/-- check_processed_file (lines 249-262): reuse an existing optimized file
when it fits in the safety margin, delete it when oversized. -/
def checkProcessedFile (p : Provider) (fs : FS) (f : SrcFile) : FS × Option FPath :=
  let processedPath := getOptimizedFilePath p f.name
  let targetBytes := (p.maxFileSizeMb - 5) * MB
  match fs.mediaSize processedPath with
  | none => (fs, none)
  | some s =>
    if s ≤ targetBytes then (fs, some processedPath)
    else (fs.remove processedPath, none)

/-- Result of a single optimize_file pass: updated filesystem, the list of
bitrates attempted in order, and the returned path (none on total failure). -/
structure OptResult where
  fs : FS
  attempts : List String
  result : Option FPath
  deriving DecidableEq, Repr

/-- The bitrate loop of optimize_file (lines 278-312).  enc is the encoder
oracle: for a bitrate it yields the output size of a successful run, or
none for a non-zero exit (modelled as leaving the filesystem unchanged).
A successful run overwrites the output path; the loop returns at the first
output within the byte target; after the loop the existing output, if any,
is returned as best effort. -/
def optimizeLoop (enc : String → Option Nat) (targetBytes : Nat) (out : FPath) :
    FS → List String → OptResult
  | fs, [] =>
    match fs.mediaSize out with
    | some _ => ⟨fs, [], some out⟩
    | none => ⟨fs, [], none⟩
  | fs, b :: rest =>
    match enc b with
    | none =>
      let r := optimizeLoop enc targetBytes out fs rest
      ⟨r.fs, b :: r.attempts, r.result⟩
    | some s =>
      let fs' := fs.write out (.media s)
      if s ≤ targetBytes then ⟨fs', [b], some out⟩
      else
        let r := optimizeLoop enc targetBytes out fs' rest
        ⟨r.fs, b :: r.attempts, r.result⟩

/-- The extensions treated as audio by optimize_file (line 280); for other
extensions ffmpeg is invoked with the strip-video flag. -/
def audioExtensions : List String :=
  [".mp3", ".mpga", ".m4a", ".ogg", ".wav", ".flac"]

/-- optimize_file (lines 264-312). -/
def optimizeFile (p : Provider) (enc : Bool → String → Option Nat) (fs : FS)
    (f : SrcFile) : OptResult :=
  let out := getOptimizedFilePath p f.name
  let targetBytes := (p.maxFileSizeMb - 5) * MB
  let strip := !(audioExtensions.contains (fileExt f.name))
  optimizeLoop (enc strip) targetBytes out fs p.bitrateLadder

/-- The error-message rewrite of transcribe_file (lines 330-336): under the
groq provider, Cloudflare-shaped errors are replaced by a fixed message. -/
def massageError (providerName msg : String) : String :=
  if providerName = "groq" then
    if subIn "520" msg || subIn "Cloudflare" msg || subIn "HTML error page" msg then
      "Groq API connection error (Cloudflare 520)"
    else msg
  else msg

/-- Result of transcribe_file: outcome, filesystem, number of
provider.transcribe calls made, and recorded sleep durations in order. -/
structure TFResult where
  success : Bool
  fs : FS
  calls : Nat
  sleeps : List Nat
  deriving DecidableEq, Repr

/-- The content of the error log written on the final failed attempt
(lines 346-351). -/
def errorLogLines (providerName now : String) (filePath : FPath) (msg : String) :
    List String :=
  ["Error transcribing file: " ++ msg,
   "Time: " ++ now,
   "File: " ++ pathStr filePath,
   "Provider: " ++ providerName]

/-- The retry loop of transcribe_file (lines 318-353), recursing on the
number of remaining attempts; attempt is the 0-based index of the current
attempt.  trans is the transcription oracle indexed by attempt.  On
success the transcript is written and the loop returns true; on the last
failed attempt the error log is written; otherwise the backoff
retry_delay * (attempt + 1) is recorded and the loop continues. -/
def tfLoop (providerName : String) (trans : Nat → Except String String)
    (retryDelay : Nat) (now : String) (filePath : FPath) :
    Nat → Nat → FS → TFResult
  | 0, _, fs => ⟨false, fs, 0, []⟩
  | remaining + 1, attempt, fs =>
    match trans attempt with
    | .ok text =>
      ⟨true, fs.write (getTranscriptionPath filePath.name) (.text [text]), 1, []⟩
    | .error e =>
      let msg := massageError providerName e
      if remaining = 0 then
        let logPath : FPath := ⟨.transcriptions, errorLogName filePath.name⟩
        ⟨false, fs.write logPath (.text (errorLogLines providerName now filePath msg)), 1, []⟩
      else
        let wait := retryDelay * (attempt + 1)
        let r := tfLoop providerName trans retryDelay now filePath remaining (attempt + 1) fs
        ⟨r.success, r.fs, r.calls + 1, wait :: r.sleeps⟩

/-- transcribe_file (lines 314-353) with explicit max_retries and
retry_delay (defaults 3 and 5 at the call site in process_files). -/
def transcribeFile (providerName : String) (trans : Nat → Except String String)
    (fs : FS) (filePath : FPath) (maxRetries retryDelay : Nat) (now : String) : TFResult :=
  tfLoop providerName trans retryDelay now filePath maxRetries 0 fs

/-- Per-file outcome in the process_files loop: skipped on an existing
transcription, optFailed when optimize_file returned none, otherwise the
result of transcribe_file. -/
inductive Outcome where
  | skipped
  | optFailed
  | transcribed
  | failed
  deriving DecidableEq, Repr

/-- Trace of one iteration of the process_files loop. -/
structure FileStep where
  file : String
  outcome : Outcome
  encAttempts : List String
  transcribedPath : Option FPath
  transCalls : Nat
  didOptimize : Bool
  deriving DecidableEq, Repr

/-- One iteration of the process_files loop (lines 372-414).  The encoder
oracle enc takes the source file name, the strip-video flag and the
bitrate; the transcription oracle trans takes the name of the uploaded
file and the attempt index. -/
def processFile (p : Provider) (enc : String → Bool → String → Option Nat)
    (trans : String → Nat → Except String String) (now : String)
    (maxRetries retryDelay : Nat) (fs : FS) (f : SrcFile) : FS × FileStep :=
  if transcriptionExists p fs f.name then
    (fs, ⟨f.name, .skipped, [], none, 0, false⟩)
  else
    let checked := checkProcessedFile p fs f
    match checked.2 with
    | some processedPath =>
      let r := transcribeFile p.name (trans processedPath.name) checked.1 processedPath
        maxRetries retryDelay now
      (r.fs, ⟨f.name, if r.success then .transcribed else .failed, [],
        some processedPath, r.calls, false⟩)
    | none =>
      if needsOptimization p f then
        let o := optimizeFile p (enc f.name) checked.1 f
        match o.result with
        | some optimizedPath =>
          let r := transcribeFile p.name (trans optimizedPath.name) o.fs optimizedPath
            maxRetries retryDelay now
          (r.fs, ⟨f.name, if r.success then .transcribed else .failed, o.attempts,
            some optimizedPath, r.calls, true⟩)
        | none =>
          (o.fs, ⟨f.name, .optFailed, o.attempts, none, 0, false⟩)
      else
        let srcPath : FPath := ⟨.toTranscribe, f.name⟩
        let r := transcribeFile p.name (trans f.name) checked.1 srcPath
          maxRetries retryDelay now
        (r.fs, ⟨f.name, if r.success then .transcribed else .failed, [],
          some srcPath, r.calls, false⟩)

structure RunResult where
  fs : FS
  steps : List FileStep
  deriving DecidableEq, Repr

/-- process_files (lines 355-423) over an explicit file list, with the
call-site defaults max_retries = 3 and retry_delay = 5. -/
def processList (p : Provider) (enc : String → Bool → String → Option Nat)
    (trans : String → Nat → Except String String) (now : String) :
    FS → List SrcFile → RunResult
  | fs, [] => ⟨fs, []⟩
  | fs, f :: rest =>
    let step := processFile p enc trans now 3 5 fs f
    let r := processList p enc trans now step.1 rest
    ⟨r.fs, step.2 :: r.steps⟩

/-- The summary statistics of process_files (lines 364-370): optimization
failure and transcription failure both count as failed (lines 404, 414). -/
structure Stats where
  total : Nat
  skipped : Nat
  optimized : Nat
  transcribed : Nat
  failed : Nat
  deriving DecidableEq, Repr

def statsOf (steps : List FileStep) : Stats :=
  { total := steps.length
    skipped := (steps.filter (fun s => s.outcome = .skipped)).length
    optimized := (steps.filter (fun s => s.didOptimize)).length
    transcribed := (steps.filter (fun s => s.outcome = .transcribed)).length
    failed := (steps.filter (fun s => s.outcome = .failed || s.outcome = .optFailed)).length }

/-- Total encoder invocations of a run. -/
def encTotal (steps : List FileStep) : Nat :=
  (steps.map (fun s => s.encAttempts.length)).sum

/-- Total provider.transcribe calls of a run. -/
def transTotal (steps : List FileStep) : Nat :=
  (steps.map (fun s => s.transCalls)).sum

/-- The environment consulted at module initialization (lines 18-20). -/
structure Env where
  transcriptionProvider : Option String
  groqApiKey : Option String
  mistralApiKey : Option String

/-- The module-level configuration check (lines 18-36): default provider
groq, lower-cased; a missing key or an unknown provider name aborts. -/
def initKeys (env : Env) : Except String (String × Option String × Option String) :=
  let name := lowerStr (env.transcriptionProvider.getD "groq")
  if name = "groq" then
    match env.groqApiKey with
    | none => .error "Error: GROQ_API_KEY not found in .env file"
    | some k => .ok (name, some k, none)
  else if name = "mistral" then
    match env.mistralApiKey with
    | none => .error "Error: MISTRAL_API_KEY not found in .env file"
    | some k => .ok (name, none, some k)
  else
    .error ("Error: Unsupported provider " ++ name ++ ". Supported providers: groq, mistral")

/-- ProviderFactory.create_provider (lines 189-200). -/
def createProvider (name : String) (gk mk : Option String) : Except String Provider :=
  if name = "groq" then
    match gk with
    | none => .error "Groq API key is required for Groq provider"
    | some _ => .ok groqProvider
  else if name = "mistral" then
    match mk with
    | none => .error "Mistral API key is required for Mistral provider"
    | some _ => .ok mistralProvider
  else .error ("Unsupported provider: " ++ name)

/-- Module initialization up to the provider instance (lines 18-203):
key check then factory call.  An error here precedes directory creation,
directory scanning and all per-file work. -/
def startupProvider (env : Env) : Except String Provider := do
  let cfg ← initKeys env
  createProvider cfg.1 cfg.2.1 cfg.2.2

/-- The whole program: configuration, then the processing loop.  A
configuration error short-circuits: no RunResult is produced, so no file
is classified and no encoder or network call is made. -/
def main (env : Env) (enc : String → Bool → String → Option Nat)
    (trans : String → Nat → Except String String) (now : String)
    (fs : FS) (files : List SrcFile) : Except String RunResult := do
  let p ← startupProvider env
  pure (processList p enc trans now fs files)

/-- An encoder outcome within the safety margin. -/
def qualifies (o : Option Nat) (t : Nat) : Bool :=
  match o with
  | some s => s ≤ t
  | none => false

/-- The step recorded for a file skipped because a transcription exists. -/
def skipStep (n : String) : FileStep :=
  ⟨n, .skipped, [], none, 0, false⟩

/-- Encoder oracle for the C3 witness: 64k stays oversized, anything lower
fits. -/
def encW : Bool → String → Option Nat :=
  fun _ b => if b = "64k" then some (30 * MB) else some (19 * MB)

/-! Basic lemmas about the filesystem model. -/

theorem lookupL_removeL_ne {p q : FPath} (h : q ≠ p) :
    ∀ l : List (FPath × Entry), lookupL (removeL l p) q = lookupL l q := by
  intro l
  induction l with
  | nil => rfl
  | cons hd tl ih =>
    by_cases hp : hd.1 = p
    · have hne : hd.1 ≠ q := by rw [hp]; exact fun hh => h hh.symm
      have h1 : removeL (hd :: tl) p = removeL tl p := by
        simp [removeL, List.filter_cons, hp]
      have h2 : lookupL (hd :: tl) q = lookupL tl q := by
        simp [lookupL, hne]
      rw [h1, h2]; exact ih
    · have h1 : removeL (hd :: tl) p = hd :: removeL tl p := by
        simp [removeL, List.filter_cons, hp]
      rw [h1]
      by_cases hq : hd.1 = q
      · simp [lookupL, hq]
      · simp [lookupL, hq, ih]

theorem lookup_write_self (fs : FS) (p : FPath) (e : Entry) :
    (fs.write p e).lookup p = some e := by
  simp [FS.write, FS.lookup, lookupL]

theorem lookup_write_ne (fs : FS) (p q : FPath) (e : Entry) (h : q ≠ p) :
    (fs.write p e).lookup q = fs.lookup q := by
  simp only [FS.write, FS.lookup, lookupL]
  rw [if_neg (fun hh => h hh.symm)]
  exact lookupL_removeL_ne h _

theorem lookup_remove_ne (fs : FS) (p q : FPath) (h : q ≠ p) :
    (fs.remove p).lookup q = fs.lookup q := by
  simp only [FS.remove, FS.lookup]
  exact lookupL_removeL_ne h _

theorem lookup_write_isSome (fs : FS) (p q : FPath) (e : Entry)
    (h : (fs.lookup q).isSome = true) : ((fs.write p e).lookup q).isSome = true := by
  by_cases hq : q = p
  · subst hq; simp [lookup_write_self]
  · rw [lookup_write_ne fs p q e hq]; exact h

/-- No error-log name collides with a transcription name: the two fixed
suffixes end in different characters. -/
theorem errName_ne_transName (s₁ s₂ : String) :
    s₁ ++ "_error.log" ≠ s₂ ++ "_transcription.txt" := by
  intro h
  have hd := congrArg String.data h
  rw [String.data_append, String.data_append] at hd
  have h1 := congrArg List.getLast? hd
  rw [List.getLast?_append, List.getLast?_append] at h1
  have e1 : ("_error.log".data).getLast? = some 'g' := rfl
  have e2 : ("_transcription.txt".data).getLast? = some 't' := rfl
  rw [e1, e2] at h1
  simp [Option.or] at h1

/-! Lemmas about the transcribe_file retry loop. -/

theorem tfLoop_calls_le (pn : String) (trans : Nat → Except String String)
    (d : Nat) (now : String) (fp : FPath) :
    ∀ remaining attempt fs, (tfLoop pn trans d now fp remaining attempt fs).calls ≤ remaining := by
  intro remaining
  induction remaining with
  | zero => intro attempt fs; simp [tfLoop]
  | succ r ih =>
    intro attempt fs
    simp only [tfLoop]
    cases htr : trans attempt with
    | ok t => simp
    | error e =>
      by_cases hr : r = 0
      · simp [hr]
      · simp only [if_neg hr]
        exact Nat.succ_le_succ (ih (attempt + 1) fs)

theorem tfLoop_calls_pos (pn : String) (trans : Nat → Except String String)
    (d : Nat) (now : String) (fp : FPath) :
    ∀ remaining attempt fs, 1 ≤ remaining →
      1 ≤ (tfLoop pn trans d now fp remaining attempt fs).calls := by
  intro remaining
  cases remaining with
  | zero => intro attempt fs h; exact absurd h (by simp)
  | succ r =>
    intro attempt fs _
    simp only [tfLoop]
    cases htr : trans attempt with
    | ok t => simp
    | error e =>
      by_cases hr : r = 0
      · simp [hr]
      · simp only [if_neg hr]
        exact Nat.succ_le_succ (Nat.zero_le _)

theorem tfLoop_sleeps (pn : String) (trans : Nat → Except String String)
    (d : Nat) (now : String) (fp : FPath) :
    ∀ remaining attempt fs,
      (tfLoop pn trans d now fp remaining attempt fs).sleeps
        = (List.range ((tfLoop pn trans d now fp remaining attempt fs).calls - 1)).map
            (fun j => d * (attempt + j + 1)) := by
  intro remaining
  induction remaining with
  | zero => intro attempt fs; simp [tfLoop]
  | succ r ih =>
    intro attempt fs
    simp only [tfLoop]
    cases htr : trans attempt with
    | ok t => simp
    | error e =>
      by_cases hr : r = 0
      · simp [hr]
      · simp only [if_neg hr]
        have hpos : 1 ≤ (tfLoop pn trans d now fp r (attempt + 1) fs).calls :=
          tfLoop_calls_pos pn trans d now fp r (attempt + 1) fs (Nat.one_le_iff_ne_zero.mpr hr)
        have hsplit : (tfLoop pn trans d now fp r (attempt + 1) fs).calls + 1 - 1
            = ((tfLoop pn trans d now fp r (attempt + 1) fs).calls - 1) + 1 := by omega
        rw [ih (attempt + 1) fs]
        simp only [hsplit, List.range_succ_eq_map, List.map_cons, List.map_map]
        have hhead : d * (attempt + 0 + 1) = d * (attempt + 1) := by norm_num
        have htail : List.map ((fun j => d * (attempt + j + 1)) ∘ Nat.succ)
            (List.range ((tfLoop pn trans d now fp r (attempt + 1) fs).calls - 1))
            = List.map (fun j => d * (attempt + 1 + j + 1))
              (List.range ((tfLoop pn trans d now fp r (attempt + 1) fs).calls - 1)) := by
          apply List.map_congr_left
          intro j _
          simp only [Function.comp, Nat.succ_eq_add_one]
          ring
        rw [hhead, htail]

theorem tfLoop_all_fail_calls (pn : String) (trans : Nat → Except String String)
    (d : Nat) (now : String) (fp : FPath) :
    ∀ remaining attempt fs,
      (∀ a, attempt ≤ a → a < attempt + remaining → ∃ e, trans a = .error e) →
      (tfLoop pn trans d now fp remaining attempt fs).calls = remaining ∧
      (tfLoop pn trans d now fp remaining attempt fs).success = false := by
  intro remaining
  induction remaining with
  | zero => intro attempt fs _; simp [tfLoop]
  | succ r ih =>
    intro attempt fs hfail
    obtain ⟨e, he⟩ := hfail attempt (Nat.le_refl _) (by omega)
    simp only [tfLoop, he]
    by_cases hr : r = 0
    · simp [hr]
    · simp only [if_neg hr]
      have := ih (attempt + 1) fs (fun a h1 h2 => hfail a (by omega) (by omega))
      exact ⟨by rw [this.1], this.2⟩

theorem tfLoop_success_ok (pn : String) (trans : Nat → Except String String)
    (d : Nat) (now : String) (fp : FPath) :
    ∀ remaining attempt fs,
      (tfLoop pn trans d now fp remaining attempt fs).success = true →
      ∃ t, trans (attempt + ((tfLoop pn trans d now fp remaining attempt fs).calls - 1)) = .ok t := by
  intro remaining
  induction remaining with
  | zero => intro attempt fs h; simp [tfLoop] at h
  | succ r ih =>
    intro attempt fs
    simp only [tfLoop]
    cases htr : trans attempt with
    | ok t => intro _; exact ⟨t, by simpa using htr⟩
    | error e =>
      by_cases hr : r = 0
      · simp [hr]
      · simp only [if_neg hr]
        intro hs
        have hpos : 1 ≤ (tfLoop pn trans d now fp r (attempt + 1) fs).calls :=
          tfLoop_calls_pos pn trans d now fp r (attempt + 1) fs (Nat.one_le_iff_ne_zero.mpr hr)
        obtain ⟨t, ht⟩ := ih (attempt + 1) fs hs
        refine ⟨t, ?_⟩
        have harith : attempt + ((tfLoop pn trans d now fp r (attempt + 1) fs).calls + 1 - 1)
            = attempt + 1 + ((tfLoop pn trans d now fp r (attempt + 1) fs).calls - 1) := by omega
        rw [harith]
        exact ht

theorem tfLoop_success_transcript (pn : String) (trans : Nat → Except String String)
    (d : Nat) (now : String) (fp : FPath) :
    ∀ remaining attempt fs,
      (tfLoop pn trans d now fp remaining attempt fs).success = true →
      (((tfLoop pn trans d now fp remaining attempt fs).fs).lookup
        (getTranscriptionPath fp.name)).isSome = true := by
  intro remaining
  induction remaining with
  | zero => intro attempt fs h; simp [tfLoop] at h
  | succ r ih =>
    intro attempt fs
    simp only [tfLoop]
    cases htr : trans attempt with
    | ok t => intro _; simp [lookup_write_self]
    | error e =>
      by_cases hr : r = 0
      · simp [hr]
      · simp only [if_neg hr]
        intro hs
        exact ih (attempt + 1) fs hs

theorem tfLoop_lookup_isSome (pn : String) (trans : Nat → Except String String)
    (d : Nat) (now : String) (fp : FPath) :
    ∀ remaining attempt fs q, (fs.lookup q).isSome = true →
      (((tfLoop pn trans d now fp remaining attempt fs).fs).lookup q).isSome = true := by
  intro remaining
  induction remaining with
  | zero => intro attempt fs q h; simpa [tfLoop] using h
  | succ r ih =>
    intro attempt fs q h
    simp only [tfLoop]
    cases htr : trans attempt with
    | ok t => exact lookup_write_isSome _ _ _ _ h
    | error e =>
      by_cases hr : r = 0
      · simp only [hr, if_pos rfl]
        exact lookup_write_isSome _ _ _ _ h
      · simp only [if_neg hr]
        exact ih (attempt + 1) fs q h

theorem tfLoop_all_fail_eq (pn : String) (trans : Nat → Except String String)
    (d : Nat) (now : String) (fp : FPath) (errOf : Nat → String) :
    ∀ remaining attempt fs, 1 ≤ remaining →
      (∀ a, attempt ≤ a → a < attempt + remaining → trans a = .error (errOf a)) →
      tfLoop pn trans d now fp remaining attempt fs =
        ⟨false,
         fs.write ⟨.transcriptions, errorLogName fp.name⟩
           (.text (errorLogLines pn now fp (massageError pn (errOf (attempt + remaining - 1))))),
         remaining,
         (List.range (remaining - 1)).map (fun j => d * (attempt + j + 1))⟩ := by
  intro remaining
  induction remaining with
  | zero => intro attempt fs h; exact absurd h (by simp)
  | succ r ih =>
    intro attempt fs _ hfail
    have he : trans attempt = .error (errOf attempt) := hfail attempt (Nat.le_refl _) (by omega)
    simp only [tfLoop, he]
    by_cases hr : r = 0
    · subst hr; simp
    · simp only [if_neg hr]
      rw [ih (attempt + 1) fs (Nat.one_le_iff_ne_zero.mpr hr)
        (fun a h1 h2 => hfail a (by omega) (by omega))]
      have h1 : attempt + 1 + r - 1 = attempt + (r + 1) - 1 := by omega
      have h2 : r + 1 - 1 = (r - 1) + 1 := by omega
      simp only [h1, h2, List.range_succ_eq_map, List.map_cons, List.map_map]
      have hhead : d * (attempt + 0 + 1) = d * (attempt + 1) := by norm_num
      have htail : List.map ((fun j => d * (attempt + j + 1)) ∘ Nat.succ) (List.range (r - 1))
          = List.map (fun j => d * (attempt + 1 + j + 1)) (List.range (r - 1)) := by
        apply List.map_congr_left
        intro j _
        simp only [Function.comp, Nat.succ_eq_add_one]
        ring
      rw [hhead, htail]

/-! Lemmas about the optimize_file bitrate loop. -/

theorem optimizeLoop_attempts_nil_iff (e : String → Option Nat) (t : Nat) (out : FPath) :
    ∀ (L : List String) (fs : FS),
      ((optimizeLoop e t out fs L).attempts = [] ↔ L = []) := by
  intro L fs
  cases L with
  | nil =>
    cases hms : fs.mediaSize out <;> simp [optimizeLoop, hms]
  | cons b rest =>
    simp only [optimizeLoop]
    cases he : e b with
    | none => simp
    | some s =>
      by_cases hs : s ≤ t
      · simp [hs]
      · simp [hs]

theorem optimizeLoop_attempts_take (e : String → Option Nat) (t : Nat) (out : FPath) :
    ∀ (L : List String) (fs : FS),
      ∃ k, k ≤ L.length ∧ (optimizeLoop e t out fs L).attempts = L.take k := by
  intro L
  induction L with
  | nil =>
    intro fs
    refine ⟨0, by simp, ?_⟩
    cases hms : fs.mediaSize out <;> simp [optimizeLoop, hms]
  | cons b rest ih =>
    intro fs
    simp only [optimizeLoop]
    cases he : e b with
    | none =>
      obtain ⟨k, hk, hatt⟩ := ih fs
      exact ⟨k + 1, by simpa using Nat.succ_le_succ hk, by simp [hatt]⟩
    | some s =>
      by_cases hs : s ≤ t
      · exact ⟨1, by simp, by simp [hs]⟩
      · obtain ⟨k, hk, hatt⟩ := ih (fs.write out (.media s))
        refine ⟨k + 1, by simpa using Nat.succ_le_succ hk, ?_⟩
        simp [hs, hatt]

theorem optimizeLoop_no_early_qualify (e : String → Option Nat) (t : Nat) (out : FPath) :
    ∀ (L : List String) (fs : FS) (i : Nat) (b : String),
      (optimizeLoop e t out fs L).attempts.get? i = some b →
      i + 1 < (optimizeLoop e t out fs L).attempts.length →
      qualifies (e b) t = false := by
  intro L
  induction L with
  | nil =>
    intro fs i b hget _
    cases hms : fs.mediaSize out <;> simp [optimizeLoop, hms] at hget
  | cons bb rest ih =>
    intro fs i b hget hlt
    simp only [optimizeLoop] at hget hlt
    cases he : e bb with
    | none =>
      simp only [he] at hget hlt
      cases i with
      | zero =>
        simp at hget
        subst hget
        simp [qualifies, he]
      | succ j =>
        simp only [List.get?_cons_succ] at hget
        simp only [List.length_cons] at hlt
        exact ih fs j b hget (by omega)
    | some s =>
      by_cases hs : s ≤ t
      · simp only [he, if_pos hs] at hget hlt
        simp at hlt
      · simp only [he, if_neg hs] at hget hlt
        cases i with
        | zero =>
          simp at hget
          subst hget
          simp [qualifies, he, hs]
        | succ j =>
          simp only [List.get?_cons_succ] at hget
          simp only [List.length_cons] at hlt
          exact ih (fs.write out (.media s)) j b hget (by omega)

theorem optimizeLoop_early_stop (e : String → Option Nat) (t : Nat) (out : FPath) :
    ∀ (L : List String) (fs : FS),
      (optimizeLoop e t out fs L).attempts.length < L.length →
      ∃ b s, (optimizeLoop e t out fs L).attempts.getLast? = some b ∧
        e b = some s ∧ s ≤ t ∧ (optimizeLoop e t out fs L).result = some out := by
  intro L
  induction L with
  | nil => intro fs h; simp [optimizeLoop] at h
  | cons bb rest ih =>
    intro fs h
    simp only [optimizeLoop] at h ⊢
    cases he : e bb with
    | none =>
      simp only [he] at h ⊢
      simp only [List.length_cons] at h
      have hlt : (optimizeLoop e t out fs rest).attempts.length < rest.length := by omega
      obtain ⟨b, s, hlast, hb, hs, hres⟩ := ih fs hlt
      have hne : (optimizeLoop e t out fs rest).attempts ≠ [] := by
        intro hnil
        rw [(optimizeLoop_attempts_nil_iff e t out rest fs).mp hnil] at hlt
        simp at hlt
      refine ⟨b, s, ?_, hb, hs, by simpa using hres⟩
      obtain ⟨c, cs, hcons⟩ := List.exists_cons_of_ne_nil hne
      simp only [hcons] at hlast ⊢
      simpa [List.getLast?_cons_cons] using hlast
    | some s =>
      by_cases hs : s ≤ t
      · simp only [he, if_pos hs] at h ⊢
        exact ⟨bb, s, by simp, he, hs, by simp⟩
      · simp only [he, if_neg hs] at h ⊢
        simp only [List.length_cons] at h
        have hlt : (optimizeLoop e t out (fs.write out (.media s)) rest).attempts.length
            < rest.length := by omega
        obtain ⟨b, s', hlast, hb, hs', hres⟩ := ih (fs.write out (.media s)) hlt
        have hne : (optimizeLoop e t out (fs.write out (.media s)) rest).attempts ≠ [] := by
          intro hnil
          rw [(optimizeLoop_attempts_nil_iff e t out rest (fs.write out (.media s))).mp hnil]
            at hlt
          simp at hlt
        refine ⟨b, s', ?_, hb, hs', by simpa using hres⟩
        obtain ⟨c, cs, hcons⟩ := List.exists_cons_of_ne_nil hne
        simp only [hcons] at hlast ⊢
        simpa [List.getLast?_cons_cons] using hlast

theorem mediaSize_write_media (fs : FS) (p : FPath) (s : Nat) :
    (fs.write p (.media s)).mediaSize p = some s := by
  simp [FS.mediaSize, lookup_write_self]

theorem optimizeLoop_none_iff (e : String → Option Nat) (t : Nat) (out : FPath) :
    ∀ (L : List String) (fs : FS) (prev : Bool),
      (fs.mediaSize out).isSome = prev →
      ((optimizeLoop e t out fs L).result = none ↔
        (prev = false ∧ ∀ b ∈ L, e b = none)) := by
  intro L
  induction L with
  | nil =>
    intro fs prev hprev
    simp only [optimizeLoop]
    cases hms : fs.mediaSize out with
    | none => simp [hms] at hprev; simp [← hprev]
    | some s => simp [hms] at hprev; simp [← hprev]
  | cons bb rest ih =>
    intro fs prev hprev
    simp only [optimizeLoop]
    cases he : e bb with
    | none =>
      simp only
      rw [ih fs prev hprev]
      constructor
      · rintro ⟨h1, h2⟩
        refine ⟨h1, ?_⟩
        intro b hb
        rcases List.mem_cons.mp hb with h | h
        · subst h; exact he
        · exact h2 b h
      · rintro ⟨h1, h2⟩
        exact ⟨h1, fun b hb => h2 b (List.mem_cons_of_mem _ hb)⟩
    | some s =>
      by_cases hs : s ≤ t
      · simp only [he, if_pos hs]
        constructor
        · intro hcon; simp at hcon
        · rintro ⟨_, h2⟩
          have := h2 bb (List.mem_cons_self _ _)
          rw [he] at this; cases this
      · simp only [he, if_neg hs]
        have hw : ((fs.write out (.media s)).mediaSize out).isSome = true := by
          rw [mediaSize_write_media]; rfl
        rw [ih (fs.write out (.media s)) true hw]
        constructor
        · rintro ⟨hcon, _⟩; cases hcon
        · rintro ⟨_, h2⟩
          have := h2 bb (List.mem_cons_self _ _)
          rw [he] at this; cases this

theorem optimizeLoop_result_out (e : String → Option Nat) (t : Nat) (out : FPath) :
    ∀ (L : List String) (fs : FS) (x : FPath),
      (optimizeLoop e t out fs L).result = some x → x = out := by
  intro L
  induction L with
  | nil =>
    intro fs x h
    simp only [optimizeLoop] at h
    cases hms : fs.mediaSize out with
    | none => rw [hms] at h; simp at h
    | some s => rw [hms] at h; simp at h; exact h.symm
  | cons bb rest ih =>
    intro fs x h
    simp only [optimizeLoop] at h
    cases he : e bb with
    | none =>
      simp only [he] at h
      exact ih fs x h
    | some s =>
      by_cases hs : s ≤ t
      · simp only [he, if_pos hs] at h
        simp at h; exact h.symm
      · simp only [he, if_neg hs] at h
        exact ih (fs.write out (.media s)) x h

theorem optimizeLoop_lookup_isSome (e : String → Option Nat) (t : Nat) (out : FPath) :
    ∀ (L : List String) (fs : FS) (q : FPath), (fs.lookup q).isSome = true →
      (((optimizeLoop e t out fs L).fs).lookup q).isSome = true := by
  intro L
  induction L with
  | nil =>
    intro fs q h
    cases hms : fs.mediaSize out <;> simpa [optimizeLoop, hms] using h
  | cons bb rest ih =>
    intro fs q h
    simp only [optimizeLoop]
    cases he : e bb with
    | none => exact ih fs q h
    | some s =>
      by_cases hs : s ≤ t
      · simp only [if_pos hs]
        exact lookup_write_isSome _ _ _ _ h
      · simp only [if_neg hs]
        exact ih (fs.write out (.media s)) q (lookup_write_isSome _ _ _ _ h)

/-! Lemmas about the per-file step of process_files. -/

theorem checkProcessedFile_fst_lookup (p : Provider) (fs : FS) (f : SrcFile) (q : FPath)
    (hq : q.dir = Dir.transcriptions) :
    ((checkProcessedFile p fs f).1).lookup q = fs.lookup q := by
  unfold checkProcessedFile
  cases hms : fs.mediaSize (getOptimizedFilePath p f.name) with
  | none => simp [hms]
  | some s =>
    by_cases hs : s ≤ (p.maxFileSizeMb - 5) * MB
    · simp [hms, hs]
    · simp only [hms, if_neg hs]
      apply lookup_remove_ne
      intro hcon
      rw [hcon] at hq
      simp [getOptimizedFilePath] at hq

theorem processFile_skip_of_exists (p : Provider) (enc : String → Bool → String → Option Nat)
    (trans : String → Nat → Except String String) (now : String) (mr rd : Nat)
    (fs : FS) (f : SrcFile) (ht : transcriptionExists p fs f.name = true) :
    processFile p enc trans now mr rd fs f = (fs, skipStep f.name) := by
  simp [processFile, ht, skipStep]

theorem processFile_not_skipped (p : Provider) (enc : String → Bool → String → Option Nat)
    (trans : String → Nat → Except String String) (now : String) (mr rd : Nat)
    (fs : FS) (f : SrcFile) (ht : transcriptionExists p fs f.name = false) :
    (processFile p enc trans now mr rd fs f).2.outcome ≠ .skipped := by
  unfold processFile
  rw [ht]
  simp only [Bool.false_eq_true, if_false]
  cases hc : (checkProcessedFile p fs f).2 with
  | some pp =>
    simp only
    cases (transcribeFile p.name (trans pp.name) (checkProcessedFile p fs f).1 pp mr rd now).success <;> simp
  | none =>
    by_cases hn : needsOptimization p f
    · simp only [hn, if_true]
      cases ho : (optimizeFile p (enc f.name) (checkProcessedFile p fs f).1 f).result with
      | some x =>
        simp only
        cases (transcribeFile p.name (trans x.name)
          (optimizeFile p (enc f.name) (checkProcessedFile p fs f).1 f).fs x mr rd now).success <;> simp
      | none => simp
    · simp only [hn, if_false]
      cases (transcribeFile p.name (trans f.name) (checkProcessedFile p fs f).1
        ⟨.toTranscribe, f.name⟩ mr rd now).success <;> simp

theorem processFile_trans_lookup (p : Provider) (enc : String → Bool → String → Option Nat)
    (trans : String → Nat → Except String String) (now : String) (mr rd : Nat)
    (fs : FS) (f : SrcFile) (q : FPath) (hq : q.dir = Dir.transcriptions)
    (h : (fs.lookup q).isSome = true) :
    (((processFile p enc trans now mr rd fs f).1).lookup q).isSome = true := by
  have hbase : ((checkProcessedFile p fs f).1.lookup q).isSome = true := by
    rw [checkProcessedFile_fst_lookup p fs f q hq]; exact h
  unfold processFile
  by_cases ht : transcriptionExists p fs f.name
  · rw [ht]; simpa using h
  · rw [Bool.not_eq_true] at ht
    rw [ht]
    simp only [Bool.false_eq_true, if_false]
    cases hc : (checkProcessedFile p fs f).2 with
    | some pp =>
      simp only
      exact tfLoop_lookup_isSome _ _ _ _ _ _ _ _ _ hbase
    | none =>
      by_cases hn : needsOptimization p f
      · simp only [hn, if_true]
        have hopt : (((optimizeFile p (enc f.name) (checkProcessedFile p fs f).1 f).fs).lookup
            q).isSome = true :=
          optimizeLoop_lookup_isSome _ _ _ _ _ _ hbase
        cases ho : (optimizeFile p (enc f.name) (checkProcessedFile p fs f).1 f).result with
        | some x =>
          simp only
          exact tfLoop_lookup_isSome _ _ _ _ _ _ _ _ _ hopt
        | none => simpa using hopt
      · simp only [hn, if_false]
        exact tfLoop_lookup_isSome _ _ _ _ _ _ _ _ _ hbase

theorem transcriptionExists_mono (p : Provider) (enc : String → Bool → String → Option Nat)
    (trans : String → Nat → Except String String) (now : String) (mr rd : Nat)
    (fs : FS) (f : SrcFile) (n : String)
    (h : transcriptionExists p fs n = true) :
    transcriptionExists p (processFile p enc trans now mr rd fs f).1 n = true := by
  unfold transcriptionExists at h ⊢
  rcases Bool.or_eq_true_iff.mp h with h1 | h1
  · exact Bool.or_eq_true_iff.mpr (Or.inl
      (processFile_trans_lookup p enc trans now mr rd fs f _ rfl h1))
  · exact Bool.or_eq_true_iff.mpr (Or.inr
      (processFile_trans_lookup p enc trans now mr rd fs f _ rfl h1))

/-- A file whose step ends skipped or transcribed has a transcription
artifact afterwards: the skip case already had one; the transcribed case
just wrote one at the very name transcription_exists checks. -/
theorem processFile_establishes (p : Provider) (enc : String → Bool → String → Option Nat)
    (trans : String → Nat → Except String String) (now : String) (mr rd : Nat)
    (fs : FS) (f : SrcFile)
    (h : (processFile p enc trans now mr rd fs f).2.outcome = Outcome.skipped ∨
         (processFile p enc trans now mr rd fs f).2.outcome = Outcome.transcribed) :
    transcriptionExists p (processFile p enc trans now mr rd fs f).1 f.name = true := by
  by_cases ht : transcriptionExists p fs f.name
  · rw [processFile_skip_of_exists p enc trans now mr rd fs f ht]
    exact ht
  · rw [Bool.not_eq_true] at ht
    have hout : (processFile p enc trans now mr rd fs f).2.outcome = Outcome.transcribed := by
      rcases h with h | h
      · exact absurd h (processFile_not_skipped p enc trans now mr rd fs f ht)
      · exact h
    clear h
    unfold processFile at hout ⊢
    rw [ht] at hout ⊢
    simp only [Bool.false_eq_true, if_false] at hout ⊢
    cases hc : (checkProcessedFile p fs f).2 with
    | some pp =>
      rw [hc] at hout
      simp only [] at hout ⊢
      have hsucc : (transcribeFile p.name (trans pp.name) (checkProcessedFile p fs f).1 pp
          mr rd now).success = true := by
        by_contra hs
        rw [Bool.not_eq_true] at hs
        rw [hs] at hout
        simp at hout
      have hpp : pp = getOptimizedFilePath p f.name := by
        unfold checkProcessedFile at hc
        simp only [] at hc
        cases hms : fs.mediaSize (getOptimizedFilePath p f.name) with
        | none => rw [hms] at hc; simp at hc
        | some s =>
          rw [hms] at hc
          simp only [] at hc
          by_cases hsz : s ≤ (p.maxFileSizeMb - 5) * MB
          · rw [if_pos hsz] at hc; simpa using hc.symm
          · rw [if_neg hsz] at hc; simp at hc
      subst hpp
      have htr := tfLoop_success_transcript p.name (trans (getOptimizedFilePath p f.name).name)
        rd now (getOptimizedFilePath p f.name) mr 0 (checkProcessedFile p fs f).1 hsucc
      unfold transcriptionExists
      apply Bool.or_eq_true_iff.mpr
      right
      simpa [transcribeFile, getTranscriptionPath, transcriptionName, getOptimizedFilePath]
        using htr
    | none =>
      rw [hc] at hout
      simp only [] at hout ⊢
      by_cases hn : needsOptimization p f
      · rw [hn] at hout ⊢
        simp only [if_true] at hout ⊢
        cases ho : (optimizeFile p (enc f.name) (checkProcessedFile p fs f).1 f).result with
        | some x =>
          rw [ho] at hout
          simp only [] at hout ⊢
          have hsucc : (transcribeFile p.name (trans x.name)
              (optimizeFile p (enc f.name) (checkProcessedFile p fs f).1 f).fs x
              mr rd now).success = true := by
            by_contra hs
            rw [Bool.not_eq_true] at hs
            rw [hs] at hout
            simp at hout
          have hx : x = getOptimizedFilePath p f.name :=
            optimizeLoop_result_out _ _ _ _ _ _ ho
          subst hx
          have htr := tfLoop_success_transcript p.name
            (trans (getOptimizedFilePath p f.name).name) rd now
            (getOptimizedFilePath p f.name) mr 0
            (optimizeFile p (enc f.name) (checkProcessedFile p fs f).1 f).fs hsucc
          unfold transcriptionExists
          apply Bool.or_eq_true_iff.mpr
          right
          simpa [transcribeFile, getTranscriptionPath, transcriptionName, getOptimizedFilePath]
            using htr
        | none =>
          rw [ho] at hout
          simp at hout
      · rw [Bool.not_eq_true] at hn
        rw [hn] at hout ⊢
        simp only [Bool.false_eq_true, if_false] at hout ⊢
        have hsucc : (transcribeFile p.name (trans f.name) (checkProcessedFile p fs f).1
            ⟨.toTranscribe, f.name⟩ mr rd now).success = true := by
          by_contra hs
          rw [Bool.not_eq_true] at hs
          rw [hs] at hout
          simp at hout
        have htr := tfLoop_success_transcript p.name (trans f.name) rd now
          ⟨.toTranscribe, f.name⟩ mr 0 (checkProcessedFile p fs f).1 hsucc
        unfold transcriptionExists
        apply Bool.or_eq_true_iff.mpr
        left
        simpa [transcribeFile, getTranscriptionPath] using htr

/-! Lemmas about the whole process_files loop. -/

theorem processFile_file (p : Provider) (enc : String → Bool → String → Option Nat)
    (trans : String → Nat → Except String String) (now : String) (mr rd : Nat)
    (fs : FS) (f : SrcFile) :
    (processFile p enc trans now mr rd fs f).2.file = f.name := by
  by_cases ht : transcriptionExists p fs f.name
  · rw [processFile_skip_of_exists p enc trans now mr rd fs f ht]; rfl
  · rw [Bool.not_eq_true] at ht
    unfold processFile
    rw [ht]
    simp only [Bool.false_eq_true, if_false]
    cases hc : (checkProcessedFile p fs f).2 with
    | some pp => rfl
    | none =>
      by_cases hn : needsOptimization p f
      · simp only [hn, if_true]
        cases ho : (optimizeFile p (enc f.name) (checkProcessedFile p fs f).1 f).result with
        | some x => rfl
        | none => rfl
      · simp only [hn, if_false]
        rfl

theorem processList_steps_files (p : Provider) (enc : String → Bool → String → Option Nat)
    (trans : String → Nat → Except String String) (now : String) :
    ∀ (files : List SrcFile) (fs : FS),
      (processList p enc trans now fs files).steps.map FileStep.file
        = files.map SrcFile.name := by
  intro files
  induction files with
  | nil => intro fs; rfl
  | cons f rest ih =>
    intro fs
    simp only [processList, List.map_cons]
    rw [processFile_file p enc trans now 3 5 fs f,
      ih (processFile p enc trans now 3 5 fs f).1]

theorem processList_te_mono (p : Provider) (enc : String → Bool → String → Option Nat)
    (trans : String → Nat → Except String String) (now : String) :
    ∀ (files : List SrcFile) (fs : FS) (n : String),
      transcriptionExists p fs n = true →
      transcriptionExists p (processList p enc trans now fs files).fs n = true := by
  intro files
  induction files with
  | nil => intro fs n h; exact h
  | cons f rest ih =>
    intro fs n h
    simp only [processList]
    exact ih _ n (transcriptionExists_mono p enc trans now 3 5 fs f n h)

theorem processList_establishes_all (p : Provider) (enc : String → Bool → String → Option Nat)
    (trans : String → Nat → Except String String) (now : String) :
    ∀ (files : List SrcFile) (fs : FS),
      (∀ st ∈ (processList p enc trans now fs files).steps,
        st.outcome = Outcome.skipped ∨ st.outcome = Outcome.transcribed) →
      ∀ f ∈ files, transcriptionExists p (processList p enc trans now fs files).fs f.name
        = true := by
  intro files
  induction files with
  | nil => intro fs _ f hf; simp at hf
  | cons g rest ih =>
    intro fs hall f hf
    have hstep : (processFile p enc trans now 3 5 fs g).2.outcome = Outcome.skipped ∨
        (processFile p enc trans now 3 5 fs g).2.outcome = Outcome.transcribed := by
      have := hall (processFile p enc trans now 3 5 fs g).2
      apply this
      simp [processList]
    rcases List.mem_cons.mp hf with hfg | hfr
    · subst hfg
      have h1 := processFile_establishes p enc trans now 3 5 fs f hstep
      simpa [processList] using
        processList_te_mono p enc trans now rest (processFile p enc trans now 3 5 fs f).1
          f.name h1
    · have hrest : ∀ st ∈ (processList p enc trans now
          (processFile p enc trans now 3 5 fs g).1 rest).steps,
          st.outcome = Outcome.skipped ∨ st.outcome = Outcome.transcribed := by
        intro st hst
        apply hall
        simp [processList, hst]
      simpa [processList] using ih (processFile p enc trans now 3 5 fs g).1 hrest f hfr

theorem processList_all_skip (p : Provider) (enc : String → Bool → String → Option Nat)
    (trans : String → Nat → Except String String) (now : String) :
    ∀ (files : List SrcFile) (fs : FS),
      (∀ f ∈ files, transcriptionExists p fs f.name = true) →
      processList p enc trans now fs files = ⟨fs, files.map (fun f => skipStep f.name)⟩ := by
  intro files
  induction files with
  | nil => intro fs _; rfl
  | cons f rest ih =>
    intro fs hall
    have hf : transcriptionExists p fs f.name = true := hall f (List.mem_cons_self _ _)
    simp only [processList, processFile_skip_of_exists p enc trans now 3 5 fs f hf]
    rw [ih fs (fun g hg => hall g (List.mem_cons_of_mem _ hg))]
    simp

theorem statsOf_partition : ∀ steps : List FileStep,
    (statsOf steps).skipped + (statsOf steps).transcribed + (statsOf steps).failed
      = (statsOf steps).total := by
  intro steps
  induction steps with
  | nil => rfl
  | cons st rest ih =>
    simp only [statsOf, List.length_cons, List.filter_cons] at ih ⊢
    cases h : st.outcome <;> simp [h] <;> omega

theorem encTotal_skip (files : List SrcFile) :
    encTotal (files.map (fun f => skipStep f.name)) = 0 := by
  induction files with
  | nil => rfl
  | cons f rest ih => simpa [encTotal, skipStep] using ih

theorem transTotal_skip (files : List SrcFile) :
    transTotal (files.map (fun f => skipStep f.name)) = 0 := by
  induction files with
  | nil => rfl
  | cons f rest ih => simpa [transTotal, skipStep] using ih

/-! Claim theorems. -/

/-- Claim C4 (confirmed): for every file that is transcribed,
provider.transcribe is called at most the configured retry ceiling many
times, and exactly the ceiling when every call fails; the recorded backoff
sleeps are exactly retry_delay * k between attempt k and attempt k + 1
(the sleep list has calls - 1 entries, entry j being retry_delay * (j+1)),
so no sleep follows the final attempt or a success, which ends the loop at
that very call. -/
theorem C4_retry_ceiling_and_backoff (providerName : String)
    (trans : Nat → Except String String) (fs : FS) (filePath : FPath)
    (maxRetries retryDelay : Nat) (now : String) :
    (transcribeFile providerName trans fs filePath maxRetries retryDelay now).calls
      ≤ maxRetries ∧
    (transcribeFile providerName trans fs filePath maxRetries retryDelay now).sleeps
      = (List.range
          ((transcribeFile providerName trans fs filePath maxRetries retryDelay now).calls - 1)).map
          (fun j => retryDelay * (j + 1)) ∧
    ((∀ a, a < maxRetries → ∃ e, trans a = .error e) →
      (transcribeFile providerName trans fs filePath maxRetries retryDelay now).calls
        = maxRetries ∧
      (transcribeFile providerName trans fs filePath maxRetries retryDelay now).success
        = false) ∧
    ((transcribeFile providerName trans fs filePath maxRetries retryDelay now).success = true →
      ∃ t, trans
        ((transcribeFile providerName trans fs filePath maxRetries retryDelay now).calls - 1)
        = .ok t) := by
  refine ⟨tfLoop_calls_le providerName trans retryDelay now filePath maxRetries 0 fs, ?_, ?_, ?_⟩
  · have h := tfLoop_sleeps providerName trans retryDelay now filePath maxRetries 0 fs
    simpa [transcribeFile] using h
  · intro hf
    exact tfLoop_all_fail_calls providerName trans retryDelay now filePath maxRetries 0 fs
      (fun a _ h2 => hf a (by omega))
  · intro hs
    have h := tfLoop_success_ok providerName trans retryDelay now filePath maxRetries 0 fs hs
    simpa [transcribeFile] using h

/-- Witness for C4 at a concrete all-failing oracle with the default
ceiling 3 and delay 5: exactly 3 calls, sleeps 5 then 10, no success. -/
theorem C4_witness :
    (transcribeFile "groq" (fun _ => Except.error "boom") ⟨[]⟩
      ⟨Dir.toTranscribe, "a.mp3"⟩ 3 5 "t").calls = 3 ∧
    (transcribeFile "groq" (fun _ => Except.error "boom") ⟨[]⟩
      ⟨Dir.toTranscribe, "a.mp3"⟩ 3 5 "t").sleeps = [5, 10] ∧
    (transcribeFile "groq" (fun _ => Except.error "boom") ⟨[]⟩
      ⟨Dir.toTranscribe, "a.mp3"⟩ 3 5 "t").success = false := by
  obtain ⟨h1, h2, h3, h4⟩ := C4_retry_ceiling_and_backoff "groq"
    (fun _ => Except.error "boom") ⟨[]⟩ ⟨Dir.toTranscribe, "a.mp3"⟩ 3 5 "t"
  obtain ⟨hc, hs⟩ := h3 (fun a _ => ⟨"boom", rfl⟩)
  refine ⟨hc, ?_, hs⟩
  rw [h2, hc]
  rfl

/-- Claim C6 (confirmed): an unknown provider name fails with the
configuration error and aborts the whole run before any file processing:
main short-circuits with the error, producing no RunResult, so no
directory scan result, no classification, no encoder call and no network
call exists. -/
theorem C6_unknown_provider_aborts (env : Env) (enc : String → Bool → String → Option Nat)
    (trans : String → Nat → Except String String) (now : String) (fs : FS)
    (files : List SrcFile)
    (h1 : lowerStr (env.transcriptionProvider.getD "groq") ≠ "groq")
    (h2 : lowerStr (env.transcriptionProvider.getD "groq") ≠ "mistral") :
    main env enc trans now fs files =
      Except.error ("Error: Unsupported provider "
        ++ lowerStr (env.transcriptionProvider.getD "groq")
        ++ ". Supported providers: groq, mistral") := by
  unfold main startupProvider initKeys
  rw [if_neg h1, if_neg h2]
  rfl

/-- Witness for C6: the provider name invalid aborts with the
configuration error. -/
theorem C6_witness :
    main ⟨some "invalid", none, none⟩ (fun _ _ _ => none) (fun _ _ => Except.error "") "t"
      ⟨[]⟩ [] =
      Except.error "Error: Unsupported provider invalid. Supported providers: groq, mistral" := by
  rw [C6_unknown_provider_aborts ⟨some "invalid", none, none⟩ (fun _ _ _ => none)
    (fun _ _ => Except.error "") "t" ⟨[]⟩ [] (by decide) (by decide)]
  rfl

/-- Claim C8 (confirmed): a file whose size is within the provider ceiling
and whose lower-cased extension is supported classifies as ready:
needs_optimization is false and the processing loop records no encoder
attempt for it. -/
theorem C8_ready_no_optimization (p : Provider) (enc : String → Bool → String → Option Nat)
    (trans : String → Nat → Except String String) (now : String) (mr rd : Nat)
    (fs : FS) (f : SrcFile)
    (hsize : f.sizeBytes ≤ p.maxFileSizeMb * MB)
    (hext : p.supportedFormats.contains (fileExt f.name) = true) :
    needsOptimization p f = false ∧
    (processFile p enc trans now mr rd fs f).2.encAttempts = [] := by
  have hno : needsOptimization p f = false := by
    have hlt : ¬ (f.sizeBytes > p.maxFileSizeMb * MB) := Nat.not_lt.mpr hsize
    unfold needsOptimization
    rw [hext]
    simp [hlt]
  refine ⟨hno, ?_⟩
  by_cases ht : transcriptionExists p fs f.name
  · rw [processFile_skip_of_exists p enc trans now mr rd fs f ht]; rfl
  · rw [Bool.not_eq_true] at ht
    unfold processFile
    rw [ht]
    simp only [Bool.false_eq_true, if_false]
    cases hc : (checkProcessedFile p fs f).2 with
    | some pp => rfl
    | none =>
      rw [hno]
      simp

/-- Witness for C8: a 1000-byte mp3 under the groq provider. -/
theorem C8_witness :
    needsOptimization groqProvider ⟨"a.mp3", 1000⟩ = false ∧
    (processFile groqProvider (fun _ _ _ => none) (fun _ _ => Except.ok "hi") "t" 3 5
      ⟨[]⟩ ⟨"a.mp3", 1000⟩).2.encAttempts = [] :=
  C8_ready_no_optimization groqProvider (fun _ _ _ => none) (fun _ _ => Except.ok "hi")
    "t" 3 5 ⟨[]⟩ ⟨"a.mp3", 1000⟩ (by decide) (by decide)

/-- Claim C9 (confirmed): no single-file failure aborts the run: whatever
the encoder and transcription oracles do, the loop emits one step per
input file in order (so it always continues to the next file), every file
is counted exactly once among skipped, transcribed and failed, and a
correctly configured main returns ok, never an error, for every oracle
behaviour. -/
theorem C9_no_file_failure_aborts (p : Provider) (enc : String → Bool → String → Option Nat)
    (trans : String → Nat → Except String String) (now : String) (fs : FS)
    (files : List SrcFile) (k : String) :
    (processList p enc trans now fs files).steps.map FileStep.file
      = files.map SrcFile.name ∧
    (statsOf (processList p enc trans now fs files).steps).skipped
      + (statsOf (processList p enc trans now fs files).steps).transcribed
      + (statsOf (processList p enc trans now fs files).steps).failed
      = files.length ∧
    main ⟨some "groq", some k, none⟩ enc trans now fs files
      = Except.ok (processList groqProvider enc trans now fs files) := by
  refine ⟨processList_steps_files p enc trans now files fs, ?_, ?_⟩
  · have h1 := statsOf_partition (processList p enc trans now fs files).steps
    have h2 : (statsOf (processList p enc trans now fs files).steps).total
        = files.length := by
      have h3 := congrArg List.length (processList_steps_files p enc trans now files fs)
      simpa [statsOf] using h3
    omega
  · rfl

/-- Claim C10 (confirmed): the existing-optimized-file check precedes the
needs_optimization classification: when no transcription exists and a
within-margin optimized artifact does, that artifact is the file handed to
transcription, in place of the source, with no encoder attempt, whatever
the size and format of the source itself. -/
theorem C10_artifact_check_precedes (p : Provider) (enc : String → Bool → String → Option Nat)
    (trans : String → Nat → Except String String) (now : String) (mr rd : Nat)
    (fs : FS) (f : SrcFile) (s : Nat)
    (hnt : transcriptionExists p fs f.name = false)
    (hart : fs.mediaSize (getOptimizedFilePath p f.name) = some s)
    (hfit : s ≤ (p.maxFileSizeMb - 5) * MB) :
    (processFile p enc trans now mr rd fs f).2.transcribedPath
      = some (getOptimizedFilePath p f.name) ∧
    (processFile p enc trans now mr rd fs f).2.encAttempts = [] := by
  have hc : (checkProcessedFile p fs f).2 = some (getOptimizedFilePath p f.name) := by
    unfold checkProcessedFile
    simp only []
    rw [hart]
    simp [hfit]
  unfold processFile
  rw [hnt]
  simp only [Bool.false_eq_true, if_false]
  rw [hc]
  exact ⟨rfl, rfl⟩

/-- Witness for C10: a source file that itself classifies ready (small,
supported mp3) still has its existing optimized artifact transcribed. -/
theorem C10_witness :
    (processFile groqProvider (fun _ _ _ => none) (fun _ _ => Except.ok "hi") "t" 3 5
      ⟨[(⟨Dir.optimized, "a_processed.mp3"⟩, Entry.media (3 * MB))]⟩
      ⟨"a.mp3", 1000⟩).2.transcribedPath
      = some (getOptimizedFilePath groqProvider "a.mp3") ∧
    (processFile groqProvider (fun _ _ _ => none) (fun _ _ => Except.ok "hi") "t" 3 5
      ⟨[(⟨Dir.optimized, "a_processed.mp3"⟩, Entry.media (3 * MB))]⟩
      ⟨"a.mp3", 1000⟩).2.encAttempts = [] :=
  C10_artifact_check_precedes groqProvider (fun _ _ _ => none) (fun _ _ => Except.ok "hi")
    "t" 3 5 ⟨[(⟨Dir.optimized, "a_processed.mp3"⟩, Entry.media (3 * MB))]⟩
    ⟨"a.mp3", 1000⟩ (3 * MB) (by decide) (by decide) (by decide)

/-- Claim C1 counterexample: an ErrorLog for a.mp3 exists and no
Transcript does, yet the run does not skip the file: its step is
transcribed (not skipped), provider.transcribe is called once, and a new
Transcript artifact is written — so the claimed error classification with
no optimization, no transcription call and no artifact write is false. -/
theorem C1_counterexample :
    (processList groqProvider (fun _ _ _ => none) (fun _ _ => Except.ok "hi") "t0"
      ⟨[(⟨Dir.transcriptions, "a_error.log"⟩, Entry.text ["old"])]⟩
      [⟨"a.mp3", 1000⟩]).steps
      = [⟨"a.mp3", Outcome.transcribed, [], some ⟨Dir.toTranscribe, "a.mp3"⟩, 1, false⟩] ∧
    ((processList groqProvider (fun _ _ _ => none) (fun _ _ => Except.ok "hi") "t0"
      ⟨[(⟨Dir.transcriptions, "a_error.log"⟩, Entry.text ["old"])]⟩
      [⟨"a.mp3", 1000⟩]).fs.lookup
        ⟨Dir.transcriptions, "a_transcription.txt"⟩).isSome = true := by
  exact ⟨rfl, rfl⟩

/-- Claim C1 (corrected): the classification consults only Transcript
artifacts, never ErrorLogs: writing an ErrorLog for a file leaves
transcription_exists false when it was false, and such a file is not
skipped by the processing loop — it is re-attempted on the next run. -/
theorem C1_errorlog_not_consulted (p : Provider) (enc : String → Bool → String → Option Nat)
    (trans : String → Nat → Except String String) (now : String)
    (fs : FS) (f : SrcFile) (lines : List String)
    (hnt : transcriptionExists p fs f.name = false) :
    transcriptionExists p
      (fs.write ⟨Dir.transcriptions, errorLogName f.name⟩ (Entry.text lines)) f.name
      = false ∧
    (processFile p enc trans now 3 5
      (fs.write ⟨Dir.transcriptions, errorLogName f.name⟩ (Entry.text lines)) f).2.outcome
      ≠ Outcome.skipped := by
  have hq1 : getTranscriptionPath f.name
      ≠ (⟨Dir.transcriptions, errorLogName f.name⟩ : FPath) := by
    intro h
    have hn := congrArg FPath.name h
    simp only [getTranscriptionPath, transcriptionName, errorLogName] at hn
    exact errName_ne_transName (splitext f.name).1 (splitext f.name).1 hn.symm
  have hq2 : (⟨Dir.transcriptions,
      (splitext (optimizedName p f.name)).1 ++ "_transcription.txt"⟩ : FPath)
      ≠ (⟨Dir.transcriptions, errorLogName f.name⟩ : FPath) := by
    intro h
    have hn := congrArg FPath.name h
    simp only [errorLogName] at hn
    exact errName_ne_transName (splitext f.name).1
      (splitext (optimizedName p f.name)).1 hn.symm
  have hte : transcriptionExists p
      (fs.write ⟨Dir.transcriptions, errorLogName f.name⟩ (Entry.text lines)) f.name
      = false := by
    unfold transcriptionExists at hnt ⊢
    rw [lookup_write_ne fs _ _ _ hq1, lookup_write_ne fs _ _ _ hq2]
    exact hnt
  exact ⟨hte, processFile_not_skipped p enc trans now 3 5 _ f hte⟩

/-- Witness for C1 corrected: a.mp3 with only its ErrorLog present. -/
theorem C1_witness :
    transcriptionExists groqProvider
      (FS.write ⟨[]⟩ ⟨Dir.transcriptions, errorLogName "a.mp3"⟩ (Entry.text ["old"]))
      "a.mp3" = false ∧
    (processFile groqProvider (fun _ _ _ => none) (fun _ _ => Except.ok "hi") "t" 3 5
      (FS.write ⟨[]⟩ ⟨Dir.transcriptions, errorLogName "a.mp3"⟩ (Entry.text ["old"]))
      ⟨"a.mp3", 1000⟩).2.outcome ≠ Outcome.skipped :=
  C1_errorlog_not_consulted groqProvider (fun _ _ _ => none) (fun _ _ => Except.ok "hi")
    "t" ⟨[]⟩ ⟨"a.mp3", 1000⟩ ["old"] (by decide)

/-- Claim C2 counterexample: the single file of the first run fails its
transcription (a completed first run, leaving an ErrorLog); the second run
over the unchanged directory then performs 3 provider.transcribe calls,
not zero, and the file does not classify as transcribed. -/
theorem C2_counterexample :
    transTotal (processList groqProvider (fun _ _ _ => none)
      (fun _ _ => Except.error "boom") "t1"
      (processList groqProvider (fun _ _ _ => none) (fun _ _ => Except.error "boom") "t0"
        ⟨[]⟩ [⟨"a.mp3", 1000⟩]).fs
      [⟨"a.mp3", 1000⟩]).steps = 3 := by
  exact rfl

/-- Claim C2 (corrected): idempotence holds for runs whose files all ended
skipped or successfully transcribed: the second run over the unchanged
directory then skips every file, makes zero encoder and zero
provider.transcribe calls, and leaves the filesystem unchanged, whatever
its oracles would answer. -/
theorem C2_second_run_idempotent (p : Provider)
    (enc enc2 : String → Bool → String → Option Nat)
    (trans trans2 : String → Nat → Except String String) (now now2 : String)
    (fs : FS) (files : List SrcFile)
    (h : ∀ st ∈ (processList p enc trans now fs files).steps,
      st.outcome = Outcome.skipped ∨ st.outcome = Outcome.transcribed) :
    processList p enc2 trans2 now2 (processList p enc trans now fs files).fs files
      = ⟨(processList p enc trans now fs files).fs,
         files.map (fun f => skipStep f.name)⟩ ∧
    encTotal (processList p enc2 trans2 now2
      (processList p enc trans now fs files).fs files).steps = 0 ∧
    transTotal (processList p enc2 trans2 now2
      (processList p enc trans now fs files).fs files).steps = 0 := by
  have hall := processList_establishes_all p enc trans now files fs h
  have hskip := processList_all_skip p enc2 trans2 now2 files
    (processList p enc trans now fs files).fs hall
  refine ⟨hskip, ?_, ?_⟩
  · rw [hskip]
    exact encTotal_skip files
  · rw [hskip]
    exact transTotal_skip files

/-- Witness for C2 corrected: one file, first run succeeds; the second run
(with oracles that would fail) changes nothing and makes no calls. -/
theorem C2_witness :
    processList groqProvider (fun _ _ _ => none) (fun _ _ => Except.error "down") "t1"
      (processList groqProvider (fun _ _ _ => none) (fun _ _ => Except.ok "hi") "t0"
        ⟨[]⟩ [⟨"a.mp3", 1000⟩]).fs [⟨"a.mp3", 1000⟩]
      = ⟨(processList groqProvider (fun _ _ _ => none) (fun _ _ => Except.ok "hi") "t0"
          ⟨[]⟩ [⟨"a.mp3", 1000⟩]).fs, [skipStep "a.mp3"]⟩ ∧
    encTotal (processList groqProvider (fun _ _ _ => none) (fun _ _ => Except.error "down")
      "t1" (processList groqProvider (fun _ _ _ => none) (fun _ _ => Except.ok "hi") "t0"
        ⟨[]⟩ [⟨"a.mp3", 1000⟩]).fs [⟨"a.mp3", 1000⟩]).steps = 0 ∧
    transTotal (processList groqProvider (fun _ _ _ => none) (fun _ _ => Except.error "down")
      "t1" (processList groqProvider (fun _ _ _ => none) (fun _ _ => Except.ok "hi") "t0"
        ⟨[]⟩ [⟨"a.mp3", 1000⟩]).fs [⟨"a.mp3", 1000⟩]).steps = 0 :=
  C2_second_run_idempotent groqProvider (fun _ _ _ => none) (fun _ _ _ => none)
    (fun _ _ => Except.ok "hi") (fun _ _ => Except.error "down") "t0" "t1"
    ⟨[]⟩ [⟨"a.mp3", 1000⟩] (by decide)

/-- Claim C3 counterexample: a file that needs optimization, on which
every encoder invocation fails: optimize_file attempts the whole ladder
and returns null, not a non-null path — the claimed unconditional non-null
best-effort return is false. -/
theorem C3_counterexample :
    needsOptimization groqProvider ⟨"big.mp3", 30 * MB⟩ = true ∧
    (optimizeFile groqProvider (fun _ _ => none) ⟨[]⟩ ⟨"big.mp3", 30 * MB⟩).attempts
      = ["64k", "32k", "16k", "8k"] ∧
    (optimizeFile groqProvider (fun _ _ => none) ⟨[]⟩ ⟨"big.mp3", 30 * MB⟩).result
      = none := by
  exact ⟨rfl, rfl, rfl⟩

/-- Claim C3 (corrected): starting with no optimized artifact, the ladder
is attempted in exactly its listed order (the attempts are a prefix of the
ladder, one encoder invocation per attempted bitrate), no attempted
bitrate before the last one qualifies, the loop stops early exactly when
the last attempted bitrate produced an output within max_upload_size - 5
MB, and the returned path is null exactly when every encoder invocation of
the ladder failed (otherwise the last successful output is returned as
best effort). -/
theorem C3_ladder_order_and_best_effort (p : Provider) (enc : Bool → String → Option Nat)
    (fs : FS) (f : SrcFile)
    (hinit : fs.mediaSize (getOptimizedFilePath p f.name) = none) :
    (∃ k, k ≤ p.bitrateLadder.length ∧
      (optimizeFile p enc fs f).attempts = p.bitrateLadder.take k) ∧
    (∀ i b, (optimizeFile p enc fs f).attempts.get? i = some b →
      i + 1 < (optimizeFile p enc fs f).attempts.length →
      qualifies (enc (!(audioExtensions.contains (fileExt f.name))) b)
        ((p.maxFileSizeMb - 5) * MB) = false) ∧
    ((optimizeFile p enc fs f).attempts.length < p.bitrateLadder.length →
      ∃ b s, (optimizeFile p enc fs f).attempts.getLast? = some b ∧
        enc (!(audioExtensions.contains (fileExt f.name))) b = some s ∧
        s ≤ (p.maxFileSizeMb - 5) * MB ∧
        (optimizeFile p enc fs f).result = some (getOptimizedFilePath p f.name)) ∧
    ((optimizeFile p enc fs f).result = none ↔
      ∀ b ∈ p.bitrateLadder,
        enc (!(audioExtensions.contains (fileExt f.name))) b = none) := by
  have hprev : (fs.mediaSize (getOptimizedFilePath p f.name)).isSome = false := by
    rw [hinit]; rfl
  unfold optimizeFile
  refine ⟨optimizeLoop_attempts_take _ _ _ _ _,
    fun i b hget hlt => optimizeLoop_no_early_qualify _ _ _ _ _ i b hget hlt,
    fun hlt => optimizeLoop_early_stop _ _ _ _ _ hlt, ?_⟩
  have h := optimizeLoop_none_iff (enc (!(audioExtensions.contains (fileExt f.name))))
    ((p.maxFileSizeMb - 5) * MB) (getOptimizedFilePath p f.name) p.bitrateLadder fs
    false hprev
  simpa using h

/-- Witness for C3 corrected: the ladder stops early at 32k, the first
bitrate within the margin, and returns the optimized path. -/
theorem C3_witness :
    ∃ b s, (optimizeFile groqProvider encW ⟨[]⟩ ⟨"big.mp3", 30 * MB⟩).attempts.getLast?
        = some b ∧
      encW (!(audioExtensions.contains (fileExt "big.mp3"))) b = some s ∧
      s ≤ (groqProvider.maxFileSizeMb - 5) * MB ∧
      (optimizeFile groqProvider encW ⟨[]⟩ ⟨"big.mp3", 30 * MB⟩).result
        = some (getOptimizedFilePath groqProvider "big.mp3") :=
  (C3_ladder_order_and_best_effort groqProvider encW ⟨[]⟩ ⟨"big.mp3", 30 * MB⟩
    (by decide)).2.2.1 (by decide)

/-- Like lookup_write_ne, lifted over the whole retry loop: tfLoop writes
only transcription-directory paths, so lookups in the other directories
are unchanged. -/
theorem tfLoop_lookup_other (pn : String) (trans : Nat → Except String String)
    (d : Nat) (now : String) (fp : FPath) :
    ∀ remaining attempt fs (q : FPath), q.dir ≠ Dir.transcriptions →
      ((tfLoop pn trans d now fp remaining attempt fs).fs).lookup q = fs.lookup q := by
  intro remaining
  induction remaining with
  | zero => intro attempt fs q _; rfl
  | succ r ih =>
    intro attempt fs q hq
    simp only [tfLoop]
    cases htr : trans attempt with
    | ok t =>
      apply lookup_write_ne
      intro hcon
      rw [hcon] at hq
      exact hq rfl
    | error e =>
      by_cases hr : r = 0
      · simp only [hr, if_pos rfl]
        apply lookup_write_ne
        intro hcon
        rw [hcon] at hq
        exact hq rfl
      · simp only [if_neg hr]
        exact ih (attempt + 1) fs q hq

/-- Claim C5 counterexample: f.xyz needs optimization, the encoder
succeeds, and every transcription retry fails.  The ErrorLog is named
f_processed_error.log — from the optimized artifact stem, not the source
stem f — no f_error.log exists, and the File line records the optimized
path, not the source path. -/
theorem C5_counterexample :
    (processList groqProvider (fun _ _ _ => some (10 * MB))
      (fun _ _ => Except.error "neterr") "t0" ⟨[]⟩ [⟨"f.xyz", 1000⟩]).fs.lookup
        ⟨Dir.transcriptions, "f_error.log"⟩ = none ∧
    (processList groqProvider (fun _ _ _ => some (10 * MB))
      (fun _ _ => Except.error "neterr") "t0" ⟨[]⟩ [⟨"f.xyz", 1000⟩]).fs.lookup
        ⟨Dir.transcriptions, "f_processed_error.log"⟩
      = some (Entry.text ["Error transcribing file: neterr", "Time: t0",
          "File: space_optimized_files/f_processed.mp3", "Provider: groq"]) := by
  exact ⟨rfl, rfl⟩

/-- Claim C5 (corrected): when every retry fails, exactly one ErrorLog is
written, named stem_error.log from the stem of the file actually uploaded
(the optimized artifact when one was used), containing the last error
message after the provider-specific rewrite, the timestamp, the uploaded
file path and the provider name; no Transcript is created for the file,
and its step is counted failed. -/
theorem C5_errorlog_on_exhausted_retries :
    (∀ (providerName now : String) (trans : Nat → Except String String)
      (errOf : Nat → String) (fs : FS) (filePath : FPath) (maxRetries retryDelay : Nat),
      1 ≤ maxRetries →
      (∀ a, a < maxRetries → trans a = .error (errOf a)) →
      transcribeFile providerName trans fs filePath maxRetries retryDelay now =
        ⟨false,
         fs.write ⟨Dir.transcriptions, errorLogName filePath.name⟩
           (Entry.text (errorLogLines providerName now filePath
             (massageError providerName (errOf (maxRetries - 1))))),
         maxRetries,
         (List.range (maxRetries - 1)).map (fun j => retryDelay * (j + 1))⟩) ∧
    (∀ (providerName now : String) (trans : Nat → Except String String)
      (errOf : Nat → String) (fs : FS) (filePath : FPath) (maxRetries retryDelay : Nat),
      1 ≤ maxRetries →
      (∀ a, a < maxRetries → trans a = .error (errOf a)) →
      fs.lookup (getTranscriptionPath filePath.name) = none →
      (transcribeFile providerName trans fs filePath maxRetries retryDelay now).fs.lookup
        (getTranscriptionPath filePath.name) = none) ∧
    (∀ (p : Provider) (enc : String → Bool → String → Option Nat)
      (trans : String → Nat → Except String String) (now : String) (fs : FS)
      (f : SrcFile) (q : FPath),
      (∀ n a, ∃ e, trans n a = Except.error e) →
      (processFile p enc trans now 3 5 fs f).2.transcribedPath = some q →
      (processFile p enc trans now 3 5 fs f).2.outcome = Outcome.failed) := by
  have hmain : ∀ (providerName now : String) (trans : Nat → Except String String)
      (errOf : Nat → String) (fs : FS) (filePath : FPath) (maxRetries retryDelay : Nat),
      1 ≤ maxRetries →
      (∀ a, a < maxRetries → trans a = .error (errOf a)) →
      transcribeFile providerName trans fs filePath maxRetries retryDelay now =
        ⟨false,
         fs.write ⟨Dir.transcriptions, errorLogName filePath.name⟩
           (Entry.text (errorLogLines providerName now filePath
             (massageError providerName (errOf (maxRetries - 1))))),
         maxRetries,
         (List.range (maxRetries - 1)).map (fun j => retryDelay * (j + 1))⟩ := by
    intro providerName now trans errOf fs filePath maxRetries retryDelay h1 hfail
    have h := tfLoop_all_fail_eq providerName trans retryDelay now filePath errOf
      maxRetries 0 fs h1 (fun a _ h2 => hfail a (by omega))
    simpa [transcribeFile] using h
  refine ⟨hmain, ?_, ?_⟩
  · intro providerName now trans errOf fs filePath maxRetries retryDelay h1 hfail hno
    rw [hmain providerName now trans errOf fs filePath maxRetries retryDelay h1 hfail]
    simp only []
    rw [lookup_write_ne]
    · exact hno
    · intro hcon
      have hn := congrArg FPath.name hcon
      simp only [getTranscriptionPath, transcriptionName, errorLogName] at hn
      exact errName_ne_transName (splitext filePath.name).1 (splitext filePath.name).1 hn.symm
  · intro p enc trans now fs f q hfail hpath
    have hsf : ∀ (n : String) (fs1 : FS) (fp : FPath),
        (transcribeFile p.name (trans n) fs1 fp 3 5 now).success = false := by
      intro n fs1 fp
      exact (tfLoop_all_fail_calls p.name (trans n) 5 now fp 3 0 fs1
        (fun a _ _ => hfail n a)).2
    by_cases ht : transcriptionExists p fs f.name
    · rw [processFile_skip_of_exists p enc trans now 3 5 fs f ht] at hpath
      simp [skipStep] at hpath
    · rw [Bool.not_eq_true] at ht
      unfold processFile at hpath ⊢
      rw [ht] at hpath ⊢
      simp only [Bool.false_eq_true, if_false] at hpath ⊢
      cases hc : (checkProcessedFile p fs f).2 with
      | some pp =>
        rw [hc] at hpath
        simp only [] at hpath ⊢
        rw [hsf pp.name (checkProcessedFile p fs f).1 pp]
        rfl
      | none =>
        rw [hc] at hpath
        simp only [] at hpath ⊢
        by_cases hn : needsOptimization p f
        · rw [hn] at hpath ⊢
          simp only [if_true] at hpath ⊢
          cases ho : (optimizeFile p (enc f.name) (checkProcessedFile p fs f).1 f).result with
          | some x =>
            rw [ho] at hpath
            simp only [] at hpath ⊢
            rw [hsf x.name (optimizeFile p (enc f.name) (checkProcessedFile p fs f).1 f).fs x]
            rfl
          | none =>
            rw [ho] at hpath
            simp at hpath
        · rw [Bool.not_eq_true] at hn
          rw [hn] at hpath ⊢
          simp only [Bool.false_eq_true, if_false] at hpath ⊢
          rw [hsf f.name (checkProcessedFile p fs f).1 ⟨Dir.toTranscribe, f.name⟩]
          rfl

/-- Witness for C5 corrected: all three parts at concrete inputs: the
exact ErrorLog written for the optimized artifact of f.xyz, the absent
Transcript, and the failed outcome. -/
theorem C5_witness :
    transcribeFile "groq" (fun _ => Except.error "neterr") ⟨[]⟩
      ⟨Dir.optimized, "f_processed.mp3"⟩ 3 5 "t0" =
      ⟨false,
       FS.write ⟨[]⟩ ⟨Dir.transcriptions, errorLogName "f_processed.mp3"⟩
         (Entry.text (errorLogLines "groq" "t0" ⟨Dir.optimized, "f_processed.mp3"⟩
           (massageError "groq" "neterr"))),
       3, (List.range 2).map (fun j => 5 * (j + 1))⟩ ∧
    (transcribeFile "groq" (fun _ => Except.error "neterr") ⟨[]⟩
      ⟨Dir.optimized, "f_processed.mp3"⟩ 3 5 "t0").fs.lookup
        (getTranscriptionPath "f_processed.mp3") = none ∧
    (processFile groqProvider (fun _ _ _ => some (10 * MB))
      (fun _ _ => Except.error "neterr") "t0" 3 5 ⟨[]⟩ ⟨"f.xyz", 1000⟩).2.outcome
      = Outcome.failed := by
  obtain ⟨hA, hB, hC⟩ := C5_errorlog_on_exhausted_retries
  refine ⟨?_, ?_, ?_⟩
  · exact hA "groq" "t0" (fun _ => Except.error "neterr") (fun _ => "neterr") ⟨[]⟩
      ⟨Dir.optimized, "f_processed.mp3"⟩ 3 5 (by decide) (fun a _ => rfl)
  · exact hB "groq" "t0" (fun _ => Except.error "neterr") (fun _ => "neterr") ⟨[]⟩
      ⟨Dir.optimized, "f_processed.mp3"⟩ 3 5 (by decide) (fun a _ => rfl) rfl
  · exact hC groqProvider (fun _ _ _ => some (10 * MB)) (fun _ _ => Except.error "neterr")
      "t0" ⟨[]⟩ ⟨"f.xyz", 1000⟩ ⟨Dir.optimized, "f_processed.mp3"⟩
      (fun n a => ⟨"neterr", rfl⟩) (by decide)

theorem lookup_remove_self (fs : FS) (p : FPath) : (fs.remove p).lookup p = none := by
  show lookupL (removeL fs.entries p) p = none
  induction fs.entries with
  | nil => rfl
  | cons hd tl ih =>
    by_cases hp : hd.1 = p
    · have h1 : removeL (hd :: tl) p = removeL tl p := by
        simp [removeL, List.filter_cons, hp]
      rw [h1]; exact ih
    · have h1 : removeL (hd :: tl) p = hd :: removeL tl p := by
        simp [removeL, List.filter_cons, hp]
      rw [h1]
      simp only [lookupL, if_neg hp]
      exact ih

/-- Claim C7 counterexample: a.mp3 is small and supported, its optimized
artifact is oversized (24 MB > 20 MB).  The run deletes the artifact but
does not run the bitrate ladder anew: the step records no encoder attempt
and the source file itself is transcribed. -/
theorem C7_counterexample :
    (processList groqProvider (fun _ _ _ => some (3 * MB)) (fun _ _ => Except.ok "hi") "t0"
       ⟨[(⟨Dir.optimized, "a_processed.mp3"⟩, Entry.media (24 * MB))]⟩
       [⟨"a.mp3", 1000⟩]).steps
      = [⟨"a.mp3", Outcome.transcribed, [], some ⟨Dir.toTranscribe, "a.mp3"⟩, 1, false⟩] ∧
    (processList groqProvider (fun _ _ _ => some (3 * MB)) (fun _ _ => Except.ok "hi") "t0"
       ⟨[(⟨Dir.optimized, "a_processed.mp3"⟩, Entry.media (24 * MB))]⟩
       [⟨"a.mp3", 1000⟩]).fs.lookup ⟨Dir.optimized, "a_processed.mp3"⟩ = none := by
  exact ⟨rfl, rfl⟩

/-- Claim C7 (corrected): an existing within-margin OptimizedFile is
reused with no encoder invocation; an oversized one is deleted, after
which the bitrate ladder runs anew only when the source file itself
classifies as needs_optimization — otherwise the source file is
transcribed unchanged and no encoder call happens, with the artifact
staying deleted. -/
theorem C7_oversized_delete_then_classify (p : Provider)
    (enc : String → Bool → String → Option Nat)
    (trans : String → Nat → Except String String) (now : String) (mr rd : Nat)
    (fs : FS) (f : SrcFile) (s : Nat)
    (hnt : transcriptionExists p fs f.name = false)
    (hart : fs.mediaSize (getOptimizedFilePath p f.name) = some s) :
    (s ≤ (p.maxFileSizeMb - 5) * MB →
      (processFile p enc trans now mr rd fs f).2.transcribedPath
        = some (getOptimizedFilePath p f.name) ∧
      (processFile p enc trans now mr rd fs f).2.encAttempts = []) ∧
    ((p.maxFileSizeMb - 5) * MB < s → needsOptimization p f = true →
      (processFile p enc trans now mr rd fs f).2.encAttempts
        = (optimizeFile p (enc f.name) (fs.remove (getOptimizedFilePath p f.name)) f).attempts) ∧
    ((p.maxFileSizeMb - 5) * MB < s → needsOptimization p f = false →
      (processFile p enc trans now mr rd fs f).2.encAttempts = [] ∧
      (processFile p enc trans now mr rd fs f).2.transcribedPath
        = some ⟨Dir.toTranscribe, f.name⟩ ∧
      ((processFile p enc trans now mr rd fs f).1).lookup
        (getOptimizedFilePath p f.name) = none) := by
  refine ⟨?_, ?_, ?_⟩
  · intro hfit
    have hc : (checkProcessedFile p fs f).2 = some (getOptimizedFilePath p f.name) := by
      unfold checkProcessedFile
      simp only []
      rw [hart]
      simp [hfit]
    unfold processFile
    rw [hnt]
    simp only [Bool.false_eq_true, if_false]
    rw [hc]
    exact ⟨rfl, rfl⟩
  · intro hbig hn
    have hcheck : checkProcessedFile p fs f
        = (fs.remove (getOptimizedFilePath p f.name), none) := by
      unfold checkProcessedFile
      simp only []
      rw [hart]
      simp only []
      rw [if_neg (Nat.not_le.mpr hbig)]
    unfold processFile
    rw [hnt]
    simp only [Bool.false_eq_true, if_false]
    rw [hcheck]
    simp only []
    rw [hn]
    simp only [if_true]
    cases ho : (optimizeFile p (enc f.name)
        (fs.remove (getOptimizedFilePath p f.name)) f).result with
    | some x => rfl
    | none => rfl
  · intro hbig hn
    have hcheck : checkProcessedFile p fs f
        = (fs.remove (getOptimizedFilePath p f.name), none) := by
      unfold checkProcessedFile
      simp only []
      rw [hart]
      simp only []
      rw [if_neg (Nat.not_le.mpr hbig)]
    unfold processFile
    rw [hnt]
    simp only [Bool.false_eq_true, if_false]
    rw [hcheck]
    simp only []
    rw [hn]
    simp only [Bool.false_eq_true, if_false]
    refine ⟨trivial, trivial, ?_⟩
    have h := tfLoop_lookup_other p.name (trans f.name) rd now ⟨Dir.toTranscribe, f.name⟩
      mr 0 (fs.remove (getOptimizedFilePath p f.name)) (getOptimizedFilePath p f.name)
      (by simp [getOptimizedFilePath])
    simp only [transcribeFile]
    rw [h]
    exact lookup_remove_self fs (getOptimizedFilePath p f.name)

/-- Witness for C7 corrected: an oversized artifact for big.mp4 (which
itself needs optimization) is deleted and the ladder then runs on the
cleaned state. -/
theorem C7_witness :
    (processFile groqProvider (fun _ _ _ => some (19 * MB)) (fun _ _ => Except.ok "hi")
      "t" 3 5 ⟨[(⟨Dir.optimized, "big_processed.mp3"⟩, Entry.media (24 * MB))]⟩
      ⟨"big.mp4", 30 * MB⟩).2.encAttempts
      = (optimizeFile groqProvider ((fun (_ : String) (_ : Bool) (_ : String) =>
            some (19 * MB)) "big.mp4")
          (FS.remove ⟨[(⟨Dir.optimized, "big_processed.mp3"⟩, Entry.media (24 * MB))]⟩
            (getOptimizedFilePath groqProvider "big.mp4"))
          ⟨"big.mp4", 30 * MB⟩).attempts :=
  (C7_oversized_delete_then_classify groqProvider (fun _ _ _ => some (19 * MB))
    (fun _ _ => Except.ok "hi") "t" 3 5
    ⟨[(⟨Dir.optimized, "big_processed.mp3"⟩, Entry.media (24 * MB))]⟩
    ⟨"big.mp4", 30 * MB⟩ (24 * MB) (by decide) (by decide)).2.1 (by decide) (by decide)

end Stt
